import Mathlib

/-!
Verification of the chaos-monkey selection engine and runner
(src/chaos_monkey.py, src/runner.py) against its specification.

The registry of chaos actions (`get_all_chaos`, assembled from the external
`chaos.net` / `chaos.kill` factories) is an external collaborator: every
definition below takes the registry as an explicit `allChaos : List Action`
parameter instead of calling the factory.  The selection state `self.chaos`
is threaded explicitly as a `List Action`.
-/

namespace CMU

/-- An Action descriptor: `command_str` is the unique command identifier,
`group` the group tag (chaos_monkey.py builds these in the external chaos
modules; the description field is irrelevant to selection and omitted). -/
structure Action where
  command_str : String
  group : String
deriving DecidableEq, Repr

/-- Errors surfaced by the selection/filter code: `badRequest` models
`utility.BadRequest` raised by `Runner._validate`; `valueError` models
Python's `list.remove` raising `ValueError` on a missing element. -/
inductive Err where
  | badRequest (msg : String)
  | valueError
deriving DecidableEq, Repr

/-- The argument of `ChaosMonkey.include_group`: Python passes either the
string literal `'all'` (or a raw user string), a list of validated names, or
`None`. -/
inductive GroupsArg where
  | pynone
  | pystr (s : String)
  | pylist (l : List String)
deriving DecidableEq, Repr

/-- Python truthiness of the `groups` argument (`if not groups: return`):
`None`, the empty string and the empty list are falsy. -/
def GroupsArg.falsy : GroupsArg → Bool
  | .pynone => true
  | .pystr s => decide (s = "")
  | .pylist l => l.isEmpty

/-- chaos_monkey.py `ChaosMonkey.get_groups`: `ret_groups = []`, then for each
requested group name extend with the members of `chaos` in that group. -/
def get_groups (groups : List String) (chaos : List Action) : List Action :=
  groups.foldl
    (fun ret_groups group =>
      ret_groups ++ chaos.filter (fun c => decide (c.group = group))) []

/-- chaos_monkey.py `ChaosMonkey.include_group`: returns unchanged on a falsy
argument; the string `'all'` selects the whole registry; otherwise selects
the requested groups from the registry.  (A non-`'all'` raw string is
iterated character by character by the Python `for` loop; `filter_commands`
only ever passes `'all'` or a validated list.) -/
def include_group (allChaos st : List Action) (groups : GroupsArg) :
    List Action :=
  if groups.falsy then st
  else if groups = .pystr "all" then allChaos
  else
    match groups with
    | .pynone => st
    | .pystr s => get_groups (s.data.map (fun c => String.mk [c])) allChaos
    | .pylist l => get_groups l allChaos

/-- Python `list.remove`: drop the first occurrence of `x`.  (Fails with
`ValueError` when `x` is absent; `remove_all` models that.) -/
def py_erase : List Action → Action → List Action
  | [], _ => []
  | y :: ys, x => if y = x then ys else y :: py_erase ys x

/-- The removal loops of `exclude_group` / `exclude_command`: remove each
listed element in order with `list.remove`; a missing element raises
`ValueError` and leaves the partially mutated state behind. -/
def remove_all : List Action → List Action → List Action × Option Err
  | st, [] => (st, none)
  | st, x :: xs =>
    if x ∈ st then remove_all (py_erase st x) xs
    else (st, some .valueError)

/-- chaos_monkey.py `ChaosMonkey.exclude_group`: materialise the matching
members of the current selection, then remove them one by one. -/
def exclude_group (st : List Action) (groups : List String) :
    List Action × Option Err :=
  remove_all st (get_groups groups st)

/-- chaos_monkey.py `ChaosMonkey._find_command`: linear search by command
string, returning the item or `None`. -/
def _find_command : List Action → String → Option Action
  | [], _ => none
  | item :: rest, cmd =>
    if item.command_str = cmd then some item else _find_command rest cmd

/-- The body of the `for cmd in included_commands` loop of `include_command`:
if the current selection has no action with this command string, extend the
selection with the whole `included` batch. -/
def include_step (included chaos : List Action) (cmd : Action) : List Action :=
  match _find_command chaos cmd.command_str with
  | some _ => chaos
  | none => chaos ++ included

/-- chaos_monkey.py `ChaosMonkey.include_command`: compute the registry
actions whose command string is in the request, then loop over them,
extending the selection by the whole batch whenever the looked-at command is
not yet selected.  (The mutation is visible to later iterations, exactly as
in the Python loop.) -/
def include_command (allChaos st : List Action) (commands : List String) :
    List Action :=
  let included := allChaos.filter (fun x => decide (x.command_str ∈ commands))
  included.foldl (include_step included) st

/-- chaos_monkey.py `ChaosMonkey.exclude_command`: materialise the selected
actions whose command string is in the request, then remove them one by
one. -/
def exclude_command (st : List Action) (commands : List String) :
    List Action × Option Err :=
  remove_all st (st.filter (fun x => decide (x.command_str ∈ commands)))

/-- chaos_monkey.py `ChaosMonkey.reset_command_selection`. -/
def reset_command_selection (_st : List Action) : List Action := []

/-- chaos_monkey.py `ChaosMonkey.get_all_groups`:
`list(set(c.group for c in all_chaos))` — only membership in the result is
ever used (the Python set order is arbitrary), modelled by `dedup`. -/
def get_all_groups (allChaos : List Action) : List String :=
  (allChaos.map (fun c => c.group)).dedup

/-- chaos_monkey.py `ChaosMonkey.get_all_commands`. -/
def get_all_commands (allChaos : List Action) : List String :=
  allChaos.map (fun c => c.command_str)

/-- Modelled from the spec: `split_arg_string` lives in `utility.py`, which
is not part of src/; per the spec, "a filter string is a comma-separated
list of names".  Helper: split a character list at commas, `cur` holding the
current token reversed. -/
def splitArgChars : List Char → List Char → List String
  | [], cur => [String.mk cur.reverse]
  | c :: cs, cur =>
    if c = ',' then String.mk cur.reverse :: splitArgChars cs []
    else splitArgChars cs (c :: cur)

/-- Modelled from the spec: `utility.split_arg_string` (not under src/) —
splits a filter string into its comma-separated names. -/
def split_arg_string (s : String) : List String :=
  splitArgChars s.data []

/-- runner.py `Runner._validate`: split the argument string, raise
`BadRequest` citing the first token not in the catalogue list, otherwise
return the token list. -/
def _validate (sub_string : String) (all_list : List String) :
    Except Err (List String) :=
  match (split_arg_string sub_string).find?
      (fun item => decide (item ∉ all_list)) with
  | some item => .error (.badRequest item)
  | none => .ok (split_arg_string sub_string)

/-- Python truthiness of an optional filter string argument
(`if include_group:` etc.): `None` and `''` are falsy. -/
def truthy : Option String → Bool
  | none => false
  | some s => decide (s ≠ "")

/-- Sequencing of the mutation steps of `filter_commands`: a raised
exception aborts the remaining steps, leaving the state mutated so far. -/
def bindSt (r : List Action × Option Err)
    (f : List Action → List Action × Option Err) : List Action × Option Err :=
  match r with
  | (st, some e) => (st, some e)
  | (st, none) => f st

/-- runner.py `Runner.filter_commands`, implicit default (lines 105-108):
if neither an include-group nor an include-command argument is truthy,
include the whole registry via `include_group('all')`. -/
def default_step (allChaos : List Action) (ig ic : Option String)
    (st : List Action) : List Action × Option Err :=
  if truthy ig || truthy ic then (st, none)
  else (include_group allChaos st (.pystr "all"), none)

/-- runner.py `Runner.filter_commands`, include-group field: when truthy,
validate against all groups then apply `include_group`. -/
def ig_step (allChaos : List Action) (arg : Option String)
    (st : List Action) : List Action × Option Err :=
  match arg with
  | none => (st, none)
  | some s =>
    if s = "" then (st, none)
    else
      match _validate s (get_all_groups allChaos) with
      | .error e => (st, some e)
      | .ok l => (include_group allChaos st (.pylist l), none)

/-- runner.py `Runner.filter_commands`, exclude-group field. -/
def eg_step (allChaos : List Action) (arg : Option String)
    (st : List Action) : List Action × Option Err :=
  match arg with
  | none => (st, none)
  | some s =>
    if s = "" then (st, none)
    else
      match _validate s (get_all_groups allChaos) with
      | .error e => (st, some e)
      | .ok l => exclude_group st l

/-- runner.py `Runner.filter_commands`, include-command field. -/
def ic_step (allChaos : List Action) (arg : Option String)
    (st : List Action) : List Action × Option Err :=
  match arg with
  | none => (st, none)
  | some s =>
    if s = "" then (st, none)
    else
      match _validate s (get_all_commands allChaos) with
      | .error e => (st, some e)
      | .ok l => (include_command allChaos st l, none)

/-- runner.py `Runner.filter_commands`, exclude-command field. -/
def ec_step (allChaos : List Action) (arg : Option String)
    (st : List Action) : List Action × Option Err :=
  match arg with
  | none => (st, none)
  | some s =>
    if s = "" then (st, none)
    else
      match _validate s (get_all_commands allChaos) with
      | .error e => (st, some e)
      | .ok l => exclude_command st l

/-- runner.py `Runner.filter_commands` (lines 100-122): the implicit
include-all default, then the four fields strictly in source order
include_group, exclude_group, include_command, exclude_command; each field
is validated immediately before its own mutation, and a raised exception
aborts the remaining fields. -/
def filter_commands (allChaos st : List Action)
    (ig eg ic ec : Option String) : List Action × Option Err :=
  bindSt (default_step allChaos ig ic st) (fun st1 =>
  bindSt (ig_step allChaos ig st1) (fun st2 =>
  bindSt (eg_step allChaos eg st2) (fun st3 =>
  bindSt (ic_step allChaos ic st3) (fun st4 =>
  ec_step allChaos ec st4))))

/-- Follows the spec's words (§4.1 composition rule), for comparison with
`filter_commands`: all include filters (groups then commands) applied
first, all exclude filters applied afterwards. -/
def filter_commands_spec_order (allChaos st : List Action)
    (ig eg ic ec : Option String) : List Action × Option Err :=
  bindSt (default_step allChaos ig ic st) (fun st1 =>
  bindSt (ig_step allChaos ig st1) (fun st2 =>
  bindSt (ic_step allChaos ic st2) (fun st3 =>
  bindSt (eg_step allChaos eg st3) (fun st4 =>
  ec_step allChaos ec st4))))

/-- A Selection Engine operation, as listed in spec §4.1. -/
inductive SEOp where
  | includeGroup (g : GroupsArg)
  | excludeGroup (gs : List String)
  | includeCommand (cs : List String)
  | excludeCommand (cs : List String)
  | reset
deriving DecidableEq, Repr

/-- Apply one Selection Engine operation to the current ActiveSet. -/
def applySEOp (allChaos st : List Action) : SEOp → List Action × Option Err
  | .includeGroup g => (include_group allChaos st g, none)
  | .excludeGroup gs => exclude_group st gs
  | .includeCommand cs => (include_command allChaos st cs, none)
  | .excludeCommand cs => exclude_command st cs
  | .reset => (reset_command_selection st, none)

/-- Run a sequence of Selection Engine operations; a raised exception stops
the sequence, keeping the state mutated so far. -/
def runSEOps (allChaos : List Action) :
    List Action → List SEOp → List Action × Option Err
  | st, [] => (st, none)
  | st, op :: ops =>
    bindSt (applySEOp allChaos st op) (fun st2 => runSEOps allChaos st2 ops)

/-- Observable chaos-monkey invocations made by the run loop:
`.runChaos` is a call to `chaos_monkey.run_random_chaos` (one action
iteration), `.shutdown` a call to `chaos_monkey.shutdown` (the hook that
reverts any action left enabled). -/
inductive Event where
  | runChaos
  | shutdown
deriving DecidableEq, Repr

/-- Modelled from the spec: `run_random_chaos` is a ChaosMonkey method not
present in src/chaos_monkey.py (the chaos actions are external
collaborators); a call either returns normally or raises. -/
inductive StepOutcome where
  | ok
  | raise
deriving DecidableEq, Repr

/-- The `while time() < expire_time` loop of runner.py `random_chaos`
(lines 80-85).  `fuel` is the number of loop-guard evaluations for which
`time() < expire_time` still holds (time is monotone, so the guard flips
once and stays false); `steps i` is the outcome of the i-th
`run_random_chaos` call.  Returns the events of the loop and whether an
exception escaped it. -/
def chaosLoop (steps : Nat → StepOutcome) (stopChaos dryRun runOnce : Bool) :
    Nat → Nat → List Event × Bool
  | 0, _ => ([], false)
  | fuel + 1, i =>
    if stopChaos || dryRun then ([], false)
    else
      match steps i with
      | .raise => ([.runChaos], true)
      | .ok =>
        if runOnce then ([.runChaos], false)
        else
          let r := chaosLoop steps stopChaos dryRun runOnce fuel (i + 1)
          (.runChaos :: r.1, r.2)

/-- Result of one `random_chaos` call: the selection state left behind, the
chaos-monkey invocations made, and whether an exception escaped. -/
structure RCResult where
  chaos : List Action
  events : List Event
  raised : Bool
deriving DecidableEq, Repr

/-- runner.py `Runner.random_chaos` (lines 66-87): filter first (a raised
`BadRequest` propagates before the loop runs), then the timed loop, then —
only when the loop finished without an exception and `dry_run` is false —
the `chaos_monkey.shutdown()` hook.  There is no try/finally here. -/
def random_chaos (allChaos st : List Action) (ig eg ic ec : Option String)
    (steps : Nat → StepOutcome) (stopChaos dryRun runOnce : Bool)
    (fuel : Nat) : RCResult :=
  let fr := filter_commands allChaos st ig eg ic ec
  match fr.2 with
  | some _ => ⟨fr.1, [], true⟩
  | none =>
    let r := chaosLoop steps stopChaos dryRun runOnce fuel 0
    if r.2 then ⟨fr.1, r.1, true⟩
    else if dryRun then ⟨fr.1, r.1, false⟩
    else ⟨fr.1, r.1 ++ [.shutdown], false⟩

/-- Outcome of the `__main__` block: events, the process exit code, and
whether `cleanup()` removed (unlinked) the lock file. -/
structure MainResult where
  events : List Event
  exitCode : Int
  lockRemoved : Bool
deriving DecidableEq, Repr

/-- runner.py `__main__` (lines 239-252), after the lock was acquired:
`try: runner.random_chaos(...) except Exception: log; sys.exit(1)
finally: runner.cleanup()`.  `cleanup` (lines 89-98) always unlinks the
lock file (a missing file is a benign warning); the exit code is 1 when
the run raised, else 0. -/
def main_after_lock (allChaos st : List Action) (ig eg ic ec : Option String)
    (steps : Nat → StepOutcome) (stopChaos dryRun runOnce : Bool)
    (fuel : Nat) : MainResult :=
  let r := random_chaos allChaos st ig eg ic ec steps stopChaos dryRun
    runOnce fuel
  ⟨r.events, if r.raised then 1 else 0, true⟩

/-- runner.py `Runner.acquire_lock` (lines 38-54): a non-directory
workspace exits with `sys.exit(-1)`; an already-existing lock file makes
the exclusive-create `os.open` fail with `EEXIST` and the handler also
calls `sys.exit(-1)`.  On success (`none`) the lock is written with the
current pid, so the subsequent `verify_lock` re-read matches. -/
def acquire_lock (isDir lockFileExists : Bool) : Option Int :=
  if !isDir then some (-1)
  else if lockFileExists then some (-1)
  else none

/-- The whole `__main__` flow: `acquire_lock` exits the process directly on
failure (before the try/finally, so no cleanup runs and the lock is not
removed); otherwise the run executes with its guaranteed cleanup. -/
def chaos_main (isDir lockFileExists : Bool) (allChaos st : List Action)
    (ig eg ic ec : Option String) (steps : Nat → StepOutcome)
    (stopChaos dryRun runOnce : Bool) (fuel : Nat) : MainResult :=
  match acquire_lock isDir lockFileExists with
  | some code => ⟨[], code, false⟩
  | none =>
    main_after_lock allChaos st ig eg ic ec steps stopChaos dryRun
      runOnce fuel

/-- Concrete registry members used to instantiate the theorems below. -/
def actA : Action := ⟨"a", "g"⟩

def actB : Action := ⟨"b", "g"⟩

def actC : Action := ⟨"c", "h"⟩

lemma py_erase_subset (x : Action) :
    ∀ (l : List Action) (a : Action), a ∈ py_erase l x → a ∈ l := by
  intro l
  induction l with
  | nil => intro a ha; simp [py_erase] at ha
  | cons y ys ih =>
    intro a ha
    by_cases hy : y = x
    · simp [py_erase, hy] at ha
      exact List.mem_cons_of_mem _ ha
    · simp [py_erase, hy] at ha
      rcases ha with ha | ha
      · exact ha ▸ List.mem_cons_self _ _
      · exact List.mem_cons_of_mem _ (ih a ha)

lemma remove_all_fst_subset :
    ∀ (l st : List Action) (a : Action), a ∈ (remove_all st l).1 → a ∈ st := by
  intro l
  induction l with
  | nil => intro st a ha; simpa [remove_all] using ha
  | cons x xs ih =>
    intro st a ha
    by_cases hx : x ∈ st
    · simp [remove_all, hx] at ha
      exact py_erase_subset x st a (ih _ a ha)
    · simpa [remove_all, hx] using ha

lemma get_groups_foldl_mem (chaos : List Action) :
    ∀ (gs : List String) (acc : List Action),
      (∀ a ∈ acc, a ∈ chaos) →
      ∀ a ∈ gs.foldl
        (fun ret_groups group =>
          ret_groups ++ chaos.filter (fun c => decide (c.group = group))) acc,
        a ∈ chaos := by
  intro gs
  induction gs with
  | nil => intro acc hacc a ha; exact hacc a (by simpa using ha)
  | cons g gs ih =>
    intro acc hacc a ha
    refine ih _ ?_ a (by simpa [List.foldl_cons] using ha)
    intro b hb
    rcases List.mem_append.mp hb with hb | hb
    · exact hacc b hb
    · exact List.mem_of_mem_filter hb

lemma get_groups_subset (gs : List String) (chaos : List Action) :
    ∀ a ∈ get_groups gs chaos, a ∈ chaos := by
  intro a ha
  exact get_groups_foldl_mem chaos gs [] (by simp) a (by simpa [get_groups] using ha)

lemma include_group_mem (allChaos st : List Action) (g : GroupsArg)
    (hst : ∀ a ∈ st, a ∈ allChaos) :
    ∀ a ∈ include_group allChaos st g, a ∈ allChaos := by
  intro a ha
  unfold include_group at ha
  by_cases hf : g.falsy
  · exact hst a (by simpa [hf] using ha)
  · by_cases hall : g = .pystr "all"
    · simpa [hf, hall] using ha
    · simp only [hf, hall, Bool.false_eq_true, if_false] at ha
      cases g with
      | pynone => exact hst a ha
      | pystr s => exact get_groups_subset _ _ a ha
      | pylist l => exact get_groups_subset _ _ a ha

lemma find_command_eq_some :
    ∀ (l : List Action) (cmd : String) (b : Action),
      _find_command l cmd = some b → b ∈ l ∧ b.command_str = cmd := by
  intro l
  induction l with
  | nil => intro cmd b h; simp [_find_command] at h
  | cons x xs ih =>
    intro cmd b h
    by_cases hx : x.command_str = cmd
    · simp [_find_command, hx] at h
      exact ⟨h ▸ List.mem_cons_self _ _, h ▸ hx⟩
    · simp [_find_command, hx] at h
      obtain ⟨hb, hcmd⟩ := ih cmd b h
      exact ⟨List.mem_cons_of_mem _ hb, hcmd⟩

lemma find_command_isSome_of_mem :
    ∀ (l : List Action) (a : Action), a ∈ l →
      (_find_command l a.command_str).isSome = true := by
  intro l
  induction l with
  | nil => intro a ha; cases ha
  | cons x xs ih =>
    intro a ha
    by_cases hx : x.command_str = a.command_str
    · simp [_find_command, hx]
    · rcases List.mem_cons.mp ha with rfl | ha
      · exact absurd rfl hx
      · simpa [_find_command, hx] using ih a ha

lemma foldl_include_step_all_found (incl : List Action) :
    ∀ (l acc : List Action),
      (∀ c ∈ l, (_find_command acc c.command_str).isSome = true) →
      l.foldl (include_step incl) acc = acc := by
  intro l
  induction l with
  | nil => intro acc _; rfl
  | cons c cs ih =>
    intro acc h
    obtain ⟨b, hb⟩ := Option.isSome_iff_exists.mp (h c (List.mem_cons_self _ _))
    have hstep : include_step incl acc c = acc := by simp [include_step, hb]
    rw [List.foldl_cons, hstep]
    exact ih acc (fun d hd => h d (List.mem_cons_of_mem _ hd))

lemma foldl_include_step_extend (incl : List Action) :
    ∀ (l acc : List Action),
      (∀ c ∈ l, c ∈ incl) →
      (∃ c ∈ l, _find_command acc c.command_str = none) →
      l.foldl (include_step incl) acc = acc ++ incl := by
  intro l
  induction l with
  | nil => intro acc _ hex; simp at hex
  | cons c cs ih =>
    intro acc hsub hex
    cases hfc : _find_command acc c.command_str with
    | none =>
      have hstep : include_step incl acc c = acc ++ incl := by
        simp [include_step, hfc]
      rw [List.foldl_cons, hstep]
      refine foldl_include_step_all_found incl cs (acc ++ incl) ?_
      intro d hd
      exact find_command_isSome_of_mem _ d
        (List.mem_append_right _ (hsub d (List.mem_cons_of_mem _ hd)))
    | some b =>
      have hstep : include_step incl acc c = acc := by simp [include_step, hfc]
      rw [List.foldl_cons, hstep]
      refine ih acc (fun d hd => hsub d (List.mem_cons_of_mem _ hd)) ?_
      rcases hex with ⟨w, hw, hwn⟩
      rcases List.mem_cons.mp hw with rfl | hw
      · rw [hfc] at hwn; cases hwn
      · exact ⟨w, hw, hwn⟩

lemma include_command_eq_of_all_found (allChaos st : List Action)
    (cs : List String)
    (h : ∀ c ∈ allChaos.filter (fun x => decide (x.command_str ∈ cs)),
      (_find_command st c.command_str).isSome = true) :
    include_command allChaos st cs = st :=
  foldl_include_step_all_found _ _ st h

lemma include_command_eq_append (allChaos st : List Action)
    (cs : List String)
    (h : ∃ c ∈ allChaos.filter (fun x => decide (x.command_str ∈ cs)),
      _find_command st c.command_str = none) :
    include_command allChaos st cs
      = st ++ allChaos.filter (fun x => decide (x.command_str ∈ cs)) :=
  foldl_include_step_extend _ _ st (fun _ hc => hc) h

lemma include_command_mem_of_mem (allChaos st : List Action)
    (cs : List String) (a : Action) (ha : a ∈ allChaos)
    (hc : a.command_str ∈ cs) :
    ∃ b ∈ include_command allChaos st cs, b.command_str = a.command_str := by
  have hmem : a ∈ allChaos.filter (fun x => decide (x.command_str ∈ cs)) :=
    List.mem_filter.mpr ⟨ha, by simpa using hc⟩
  by_cases hall : ∀ c ∈ allChaos.filter (fun x => decide (x.command_str ∈ cs)),
      (_find_command st c.command_str).isSome = true
  · obtain ⟨b, hb⟩ := Option.isSome_iff_exists.mp (hall a hmem)
    obtain ⟨hbst, hbcmd⟩ := find_command_eq_some st a.command_str b hb
    refine ⟨b, ?_, hbcmd⟩
    rw [include_command_eq_of_all_found allChaos st cs hall]
    exact hbst
  · push_neg at hall
    obtain ⟨c, hcmem, hcnone⟩ := hall
    have hnone : _find_command st c.command_str = none :=
      Option.not_isSome_iff_eq_none.mp (by simpa using hcnone)
    refine ⟨a, ?_, rfl⟩
    rw [include_command_eq_append allChaos st cs ⟨c, hcmem, hnone⟩]
    exact List.mem_append_right _ hmem

lemma include_command_mem (allChaos st : List Action) (cs : List String)
    (hst : ∀ a ∈ st, a ∈ allChaos) :
    ∀ a ∈ include_command allChaos st cs, a ∈ allChaos := by
  intro a ha
  by_cases hall : ∀ c ∈ allChaos.filter (fun x => decide (x.command_str ∈ cs)),
      (_find_command st c.command_str).isSome = true
  · rw [include_command_eq_of_all_found allChaos st cs hall] at ha
    exact hst a ha
  · push_neg at hall
    obtain ⟨c, hcmem, hcnone⟩ := hall
    have hnone : _find_command st c.command_str = none :=
      Option.not_isSome_iff_eq_none.mp (by simpa using hcnone)
    rw [include_command_eq_append allChaos st cs ⟨c, hcmem, hnone⟩] at ha
    rcases List.mem_append.mp ha with ha | ha
    · exact hst a ha
    · exact List.mem_of_mem_filter ha

lemma applySEOp_mem (allChaos st : List Action) (op : SEOp)
    (hst : ∀ a ∈ st, a ∈ allChaos) :
    ∀ a ∈ (applySEOp allChaos st op).1, a ∈ allChaos := by
  intro a ha
  cases op with
  | includeGroup g => exact include_group_mem allChaos st g hst a ha
  | excludeGroup gs =>
    exact hst a (remove_all_fst_subset _ st a (by simpa [applySEOp, exclude_group] using ha))
  | includeCommand cs => exact include_command_mem allChaos st cs hst a ha
  | excludeCommand cs =>
    exact hst a (remove_all_fst_subset _ st a (by simpa [applySEOp, exclude_command] using ha))
  | reset => simp [applySEOp, reset_command_selection] at ha

lemma runSEOps_mem (allChaos : List Action) :
    ∀ (ops : List SEOp) (st : List Action),
      (∀ a ∈ st, a ∈ allChaos) →
      ∀ a ∈ (runSEOps allChaos st ops).1, a ∈ allChaos := by
  intro ops
  induction ops with
  | nil => intro st hst a ha; exact hst a (by simpa [runSEOps] using ha)
  | cons op ops ih =>
    intro st hst a ha
    rw [runSEOps] at ha
    cases hop : applySEOp allChaos st op with
    | mk st2 err =>
      have hst2 : ∀ b ∈ st2, b ∈ allChaos := by
        intro b hb
        exact applySEOp_mem allChaos st op hst b (by rw [hop]; exact hb)
      cases err with
      | none =>
        rw [hop] at ha
        exact ih st2 hst2 a (by simpa [bindSt] using ha)
      | some e =>
        rw [hop] at ha
        exact hst2 a (by simpa [bindSt] using ha)

lemma validate_ok_eq (s : String) (catalogue l : List String)
    (h : _validate s catalogue = .ok l) : l = split_arg_string s := by
  unfold _validate at h
  cases hf : (split_arg_string s).find?
      (fun item => decide (item ∉ catalogue)) with
  | none => rw [hf] at h; injection h with h; exact h.symm
  | some item => rw [hf] at h; cases h

lemma chaosLoop_events_runChaos (steps : Nat → StepOutcome)
    (stopChaos dryRun runOnce : Bool) :
    ∀ (fuel i : Nat),
      ∀ e ∈ (chaosLoop steps stopChaos dryRun runOnce fuel i).1,
        e = Event.runChaos := by
  intro fuel
  induction fuel with
  | zero => intro i e he; simp [chaosLoop] at he
  | succ fuel ih =>
    intro i e he
    rw [chaosLoop] at he
    by_cases hb : stopChaos || dryRun
    · simp [hb] at he
    · simp only [hb, Bool.false_eq_true, if_false] at he
      cases hstep : steps i with
      | raise => rw [hstep] at he; simpa using he
      | ok =>
        rw [hstep] at he
        cases hro : runOnce with
        | true => rw [hro] at he; simpa using he
        | false =>
          rw [hro] at he
          simp only [Bool.false_eq_true, if_false] at he
          rcases List.mem_cons.mp he with rfl | he
          · rfl
          · have ih2 := ih (i + 1)
            rw [hro] at ih2
            exact ih2 e he

lemma chaosLoop_dryRun (steps : Nat → StepOutcome)
    (stopChaos runOnce : Bool) :
    ∀ (fuel i : Nat),
      chaosLoop steps stopChaos true runOnce fuel i = ([], false) := by
  intro fuel i
  cases fuel with
  | zero => rfl
  | succ fuel => simp [chaosLoop]

lemma chaosLoop_runOnce_count (steps : Nat → StepOutcome)
    (stopChaos dryRun : Bool) :
    ∀ (fuel i : Nat),
      ((chaosLoop steps stopChaos dryRun true fuel i).1.count
        Event.runChaos) ≤ 1 := by
  intro fuel i
  cases fuel with
  | zero => simp [chaosLoop]
  | succ fuel =>
    rw [chaosLoop]
    by_cases hb : stopChaos || dryRun
    · simp [hb]
    · simp only [hb, Bool.false_eq_true, if_false]
      cases hstep : steps i with
      | raise => simp
      | ok => simp

lemma include_group_all (allChaos st : List Action) :
    include_group allChaos st (.pystr "all") = allChaos := by
  simp [include_group, GroupsArg.falsy]

lemma ig_step_falsy (allChaos : List Action) (arg : Option String)
    (st : List Action) (h : truthy arg = false) :
    ig_step allChaos arg st = (st, none) := by
  cases arg with
  | none => rfl
  | some s =>
    have hs : s = "" := by simpa [truthy] using h
    simp [ig_step, hs]

lemma ic_step_falsy (allChaos : List Action) (arg : Option String)
    (st : List Action) (h : truthy arg = false) :
    ic_step allChaos arg st = (st, none) := by
  cases arg with
  | none => rfl
  | some s =>
    have hs : s = "" := by simpa [truthy] using h
    simp [ic_step, hs]

lemma shutdown_not_mem_chaosLoop (steps : Nat → StepOutcome)
    (stopChaos dryRun runOnce : Bool) (fuel i : Nat) :
    Event.shutdown ∉ (chaosLoop steps stopChaos dryRun runOnce fuel i).1 := by
  intro h
  have hev := chaosLoop_events_runChaos steps stopChaos dryRun runOnce fuel i
    Event.shutdown h
  cases hev

/-- C1: the claim says that if at least one requested command id is already
in the ActiveSet, `include_command` is a complete no-op.  The code does the
opposite: the loop extends the selection by the whole batch as soon as it
reaches a requested command that is NOT yet selected.  Here, with registry
`[actA, actB]` and ActiveSet `[actA]`, the batch `["a", "b"]` contains the
already-present id `"a"`, yet the call is not a no-op — it appends the
whole batch, duplicating `actA`. -/
theorem C1_counterexample :
    actA.command_str ∈ ["a", "b"] ∧ actA ∈ ([actA] : List Action) ∧
    include_command [actA, actB] [actA] ["a", "b"]
      = [actA, actA, actB] ∧
    include_command [actA, actB] [actA] ["a", "b"] ≠ [actA] := by decide

/-- C1 (amended): `include_command` is a no-op exactly when every registry
action matching the batch is already present (by command id) in the
ActiveSet; if at least one matching action is absent, the entire matching
subset is appended once — re-adding, and thus duplicating, any
already-present members.  (The claim's second half, "if none is present the
entire matching subset is added exactly once", holds.) -/
theorem C1_include_command_batch (allChaos st : List Action)
    (cs : List String) :
    ((∀ c ∈ allChaos.filter (fun x => decide (x.command_str ∈ cs)),
        (_find_command st c.command_str).isSome = true) →
      include_command allChaos st cs = st) ∧
    ((∃ c ∈ allChaos.filter (fun x => decide (x.command_str ∈ cs)),
        _find_command st c.command_str = none) →
      include_command allChaos st cs
        = st ++ allChaos.filter (fun x => decide (x.command_str ∈ cs))) :=
  ⟨include_command_eq_of_all_found allChaos st cs,
   include_command_eq_append allChaos st cs⟩

/-- C1 witness: with ActiveSet `[actA]` and batch `["a", "b"]`, the batch
member `actB` is absent, so the whole matching subset is appended. -/
theorem C1_include_command_batch_witness :
    include_command [actA, actB] [actA] ["a", "b"]
      = [actA] ++ ([actA, actB].filter
          (fun x => decide (x.command_str ∈ (["a", "b"] : List String)))) :=
  (C1_include_command_batch [actA, actB] [actA] ["a", "b"]).2 (by decide)

/-- C2: the claim asserts no duplicate command ids in any reachable
ActiveSet.  Two `include_command` calls with overlapping batches produce a
duplicate of `actA`. -/
theorem C2_counterexample :
    (runSEOps [actA, actB] []
        [SEOp.includeCommand ["a"], SEOp.includeCommand ["a", "b"]]).1
      = [actA, actA, actB] ∧
    ¬ (([actA, actA, actB].map Action.command_str).Nodup) := by decide

/-- C2 (amended): after any sequence of Selection Engine operations
starting from the empty ActiveSet, every Action in the ActiveSet exists in
the Registry (referential integrity) — but the no-duplicate-command-ids
half of the claim is false, since `include_command` can append
already-active commands again. -/
theorem C2_registry_integrity (allChaos : List Action) (ops : List SEOp) :
    ∀ a ∈ (runSEOps allChaos [] ops).1, a ∈ allChaos :=
  runSEOps_mem allChaos ops [] (by simp)

/-- C2 witness: a concrete run of the operation sequence, with the
membership hypothesis discharged at `actA`. -/
theorem C2_registry_integrity_witness : actA ∈ [actA, actB] :=
  C2_registry_integrity [actA, actB]
    [SEOp.includeGroup (.pystr "all"), SEOp.excludeCommand ["b"]] actA
    (by decide)

/-- C7: with dry_run set, the run loop breaks before performing any action:
no `run_random_chaos` call and no `shutdown` call happens regardless of the
remaining budget, and the cleanup still removes the lock file. -/
theorem C7_dry_run_zero_actions (allChaos st : List Action)
    (ig eg ic ec : Option String) (steps : Nat → StepOutcome)
    (stopChaos runOnce : Bool) (fuel : Nat) :
    (main_after_lock allChaos st ig eg ic ec steps stopChaos true runOnce
        fuel).events = [] ∧
    (main_after_lock allChaos st ig eg ic ec steps stopChaos true runOnce
        fuel).lockRemoved = true := by
  unfold main_after_lock random_chaos
  cases hf : (filter_commands allChaos st ig eg ic ec).2 with
  | some e => simp [hf]
  | none => simp [hf, chaosLoop_dryRun]

/-- C9: with run_once set, the run loop of `random_chaos` makes at most one
`run_random_chaos` call, regardless of the remaining budget. -/
theorem C9_run_once_at_most_one (allChaos st : List Action)
    (ig eg ic ec : Option String) (steps : Nat → StepOutcome)
    (stopChaos dryRun : Bool) (fuel : Nat) :
    ((random_chaos allChaos st ig eg ic ec steps stopChaos dryRun true
        fuel).events.count Event.runChaos) ≤ 1 := by
  have hc := chaosLoop_runOnce_count steps stopChaos dryRun fuel 0
  unfold random_chaos
  cases hf : (filter_commands allChaos st ig eg ic ec).2 with
  | some e => simp [hf]
  | none =>
    cases hr : (chaosLoop steps stopChaos dryRun true fuel 0).2 with
    | true => simpa [hf, hr] using hc
    | false =>
      cases hd : dryRun with
      | true =>
        rw [hd] at hr hc
        simpa [hf, hr] using hc
      | false =>
        rw [hd] at hr hc
        simp [hf, hr, List.count_append]
        simpa using hc

/-- C10: calling `include_group` with a falsy (absent/empty) groups
argument returns immediately and leaves the ActiveSet unchanged. -/
theorem C10_include_group_falsy (allChaos st : List Action) (g : GroupsArg)
    (h : g.falsy = true) : include_group allChaos st g = st := by
  simp [include_group, h]

/-- C10 witness: the absent (`None`) argument leaves the ActiveSet as is. -/
theorem C10_include_group_falsy_witness :
    include_group [actA] [actB] GroupsArg.pynone = [actB] :=
  C10_include_group_falsy [actA] [actB] GroupsArg.pynone (by decide)

/-- C3: the claim says any invalid name leaves the ActiveSet exactly as it
was before the call.  The code validates each field immediately before
mutating for that field, so a valid `include_group` is applied before the
invalid `exclude_command` token is noticed: the error is raised but the
ActiveSet has already changed from `[]` to `[actA]`. -/
theorem C3_counterexample :
    filter_commands [actA, actC] [] (some "g") none none (some "z")
      = ([actA], some (Err.badRequest "z")) ∧
    ([actA] : List Action) ≠ [] := by decide

/-- C3 (amended): validation is per-field, not per-call: each field is
validated immediately before its own mutation, so when the offending field
is the first one processed (a truthy `include_group`, which also suppresses
the implicit include-all default), the call raises `BadRequest` citing the
offending token and the ActiveSet is left exactly as it was; mutations of
fields processed before an invalid later field persist (as the
counterexample shows). -/
theorem C3_per_field_validation (allChaos st : List Action) (s : String)
    (eg ic ec : Option String) (e : Err) (hs : s ≠ "")
    (hv : _validate s (get_all_groups allChaos) = .error e) :
    filter_commands allChaos st (some s) eg ic ec = (st, some e) := by
  have hd : default_step allChaos (some s) ic st = (st, none) := by
    simp [default_step, truthy, hs]
  have hig : ig_step allChaos (some s) st = (st, some e) := by
    simp [ig_step, hs, hv]
  unfold filter_commands
  rw [hd]
  simp only [bindSt]
  rw [hig]

/-- C3 witness: an invalid include-group token on an untouched ActiveSet. -/
theorem C3_per_field_validation_witness :
    filter_commands [actA] [] (some "z") none none none
      = ([], some (Err.badRequest "z")) :=
  C3_per_field_validation [actA] [] "z" none none none
    (Err.badRequest "z") (by decide) (by rfl)

/-- C8: when neither an include-group nor an include-command argument is
truthy, `filter_commands` first applies the implicit
`include_group('all')` default, so the ActiveSet entering the exclude
phase is the full Registry: the whole call reduces to applying the two
exclude steps to `allChaos`. -/
theorem C8_default_include_all (allChaos st : List Action)
    (ig eg ic ec : Option String) (hig : truthy ig = false)
    (hic : truthy ic = false) :
    default_step allChaos ig ic st = (allChaos, none) ∧
    filter_commands allChaos st ig eg ic ec
      = bindSt (eg_step allChaos eg allChaos)
          (fun s => ec_step allChaos ec s) := by
  have hd : default_step allChaos ig ic st = (allChaos, none) := by
    simp [default_step, hig, hic, include_group_all]
  refine ⟨hd, ?_⟩
  unfold filter_commands
  rw [hd]
  simp only [bindSt]
  rw [ig_step_falsy allChaos ig allChaos hig]
  simp only [bindSt]
  refine congrArg (bindSt (eg_step allChaos eg allChaos)) (funext fun s => ?_)
  rw [ic_step_falsy allChaos ic s hic]

/-- C8 witness: the no-filters call on a concrete registry yields the full
registry. -/
theorem C8_default_include_all_witness :
    default_step [actA, actB] none none [] = ([actA, actB], none) ∧
    filter_commands [actA, actB] [] none none none none
      = bindSt (eg_step [actA, actB] none [actA, actB])
          (fun s => ec_step [actA, actB] none s) :=
  C8_default_include_all [actA, actB] [] none none none none
    (by decide) (by decide)

/-- C5: the claim says that on an exception in the run loop both the
shutdown hook and the lock release still execute.  `random_chaos` has no
try/finally: a raise from `run_random_chaos` propagates past the
`shutdown()` call.  Concretely, one raising iteration gives exit code 1
and a cleanup, but no shutdown event. -/
theorem C5_counterexample :
    main_after_lock [actA] [] none none none none
        (fun _ => StepOutcome.raise) false false false 1
      = ⟨[Event.runChaos], 1, true⟩ ∧
    Event.shutdown ∉ [Event.runChaos] := by decide

/-- C5 (amended): on any run, the lock release (cleanup) always executes
and the exit code is 0 or 1; the shutdown hook runs exactly when no
exception escaped (exit code 0) and dry_run is false — in particular it is
skipped, not executed, when an exception is raised while the loop is
executing. -/
theorem C5_failure_paths (allChaos st : List Action)
    (ig eg ic ec : Option String) (steps : Nat → StepOutcome)
    (stopChaos dryRun runOnce : Bool) (fuel : Nat) :
    (main_after_lock allChaos st ig eg ic ec steps stopChaos dryRun runOnce
        fuel).lockRemoved = true ∧
    ((main_after_lock allChaos st ig eg ic ec steps stopChaos dryRun runOnce
        fuel).exitCode = 0 ∨
      (main_after_lock allChaos st ig eg ic ec steps stopChaos dryRun runOnce
        fuel).exitCode = 1) ∧
    (Event.shutdown ∈ (main_after_lock allChaos st ig eg ic ec steps
        stopChaos dryRun runOnce fuel).events ↔
      ((main_after_lock allChaos st ig eg ic ec steps stopChaos dryRun
          runOnce fuel).exitCode = 0 ∧ dryRun = false)) := by
  unfold main_after_lock random_chaos
  cases hf : (filter_commands allChaos st ig eg ic ec).2 with
  | some e => simp [hf]
  | none =>
    cases hr : (chaosLoop steps stopChaos dryRun runOnce fuel 0).2 with
    | true =>
      simp [hf, hr]
      exact shutdown_not_mem_chaosLoop steps stopChaos dryRun runOnce fuel 0
    | false =>
      cases hd : dryRun with
      | true =>
        rw [hd] at hr
        simp [hf, hr]
        exact shutdown_not_mem_chaosLoop steps stopChaos true runOnce fuel 0
      | false =>
        rw [hd] at hr
        simp [hf, hr]

/-- C6: the claim says the three failure modes have pairwise-distinct exit
codes.  "Not a directory" and "lock conflict" both call `sys.exit(-1)`:
the two codes are equal. -/
theorem C6_counterexample :
    (chaos_main false false [] [] none none none none
        (fun _ => StepOutcome.ok) false false false 0).exitCode
      = (chaos_main true true [] [] none none none none
        (fun _ => StepOutcome.ok) false false false 0).exitCode ∧
    (chaos_main false false [] [] none none none none
        (fun _ => StepOutcome.ok) false false false 0).exitCode = -1 := by
  decide

/-- C6 (amended): "not a directory" and "lock conflict" share the exit
code -1; an unhandled runtime failure during the run exits 1; all failure
codes are non-zero (but not pairwise distinct), and clean completion exits
0. -/
theorem C6_exit_codes :
    (∀ (le : Bool) (allChaos st : List Action) (ig eg ic ec : Option String)
        (steps : Nat → StepOutcome) (sc dr ro : Bool) (fuel : Nat),
      (chaos_main false le allChaos st ig eg ic ec steps sc dr ro
          fuel).exitCode = -1) ∧
    (∀ (allChaos st : List Action) (ig eg ic ec : Option String)
        (steps : Nat → StepOutcome) (sc dr ro : Bool) (fuel : Nat),
      (chaos_main true true allChaos st ig eg ic ec steps sc dr ro
          fuel).exitCode = -1) ∧
    (chaos_main true false [actA] [] none none none none
        (fun _ => StepOutcome.raise) false false false 1).exitCode = 1 ∧
    (chaos_main true false [actA] [] none none none none
        (fun _ => StepOutcome.ok) false false false 1).exitCode = 0 ∧
    (-1 : Int) ≠ 0 ∧ (1 : Int) ≠ 0 := by
  refine ⟨?_, ?_, by decide, by decide, by decide, by decide⟩
  · intro le allChaos st ig eg ic ec steps sc dr ro fuel; rfl
  · intro allChaos st ig eg ic ec steps sc dr ro fuel; rfl

/-- C4: the claim says exclude filters always apply after include filters,
so an Action of an excluded group that is also named by include_command
ends up excluded.  The code applies `exclude_group` BEFORE
`include_command`: with registry `[actA]` (group "g", command "a"),
excluding group "g" and including command "a" leaves `actA` in the
ActiveSet, while the spec's include-first/exclude-last order would leave
it empty. -/
theorem C4_counterexample :
    filter_commands [actA] [] none (some "g") (some "a") none
      = ([actA], none) ∧
    filter_commands_spec_order [actA] [] none (some "g") (some "a") none
      = ([], none) ∧
    ([actA] : List Action) ≠ [] := by decide

/-- C4 (amended): the filters apply in the fixed source order
include_group, exclude_group, include_command, exclude_command.
`exclude_command` does apply after both includes, but `exclude_group`
applies before `include_command`, so an Action of an excluded group that
is also named by include_command ends up present (by command id) in the
resulting ActiveSet, not excluded: for any successful request with an
exclude-group and an include-command field, every registry action named by
the include-command list is represented in the result. -/
theorem C4_exclude_group_before_include_command
    (allChaos st res : List Action) (eg ic : String) (a : Action)
    (hres : filter_commands allChaos st none (some eg) (some ic) none
      = (res, none))
    (ha : a ∈ allChaos) (hic : ic ≠ "")
    (hcs : a.command_str ∈ split_arg_string ic) :
    ∃ b ∈ res, b.command_str = a.command_str := by
  have hd : default_step allChaos none (some ic) st = (st, none) := by
    simp [default_step, truthy, hic]
  unfold filter_commands at hres
  rw [hd] at hres
  simp only [bindSt] at hres
  have hig : ig_step allChaos none st = (st, none) := rfl
  rw [hig] at hres
  simp only [bindSt] at hres
  cases hegr : eg_step allChaos (some eg) st with
  | mk st3 err3 =>
    rw [hegr] at hres
    cases err3 with
    | some e3 => simp [bindSt] at hres
    | none =>
      simp only [bindSt] at hres
      have hics : ic_step allChaos (some ic) st3
          = match _validate ic (get_all_commands allChaos) with
            | .error e => (st3, some e)
            | .ok l => (include_command allChaos st3 l, none) := by
        simp [ic_step, hic]
      rw [hics] at hres
      cases hvic : _validate ic (get_all_commands allChaos) with
      | error e4 => rw [hvic] at hres; simp [bindSt] at hres
      | ok l =>
        rw [hvic] at hres
        simp only [bindSt] at hres
        have hec : ec_step allChaos none (include_command allChaos st3 l)
            = (include_command allChaos st3 l, none) := rfl
        rw [hec] at hres
        have hres1 : include_command allChaos st3 l = res :=
          congrArg Prod.fst hres
        have hl : l = split_arg_string ic :=
          validate_ok_eq ic (get_all_commands allChaos) l hvic
        rw [← hres1]
        exact include_command_mem_of_mem allChaos st3 l a ha (hl ▸ hcs)

/-- C4 witness: registry `[actA]`, exclude group "g", include command "a":
the excluded-group action named by include_command is in the result. -/
theorem C4_exclude_group_before_include_command_witness :
    ∃ b ∈ ([actA] : List Action), b.command_str = actA.command_str :=
  C4_exclude_group_before_include_command [actA] [] [actA] "g" "a" actA
    (by decide) (by decide) (by decide) (by decide)

end CMU
